import Mathlib

/-!
Verification of the CottageLabs/librarian dual-store ingestion core.

Shallow embedding of `librarian/librarian.py`, `librarian/librarian_config.py`,
`librarian/document_ingestion.py`, `librarian/dao/base_dao.py`,
`librarian/dao/library_file_dao.py` and the CLI layer `librarian/cli/librarian_cli.py`.

External collaborators (the embedding model, the qdrant vector database client,
the per-format langchain loaders, git) are modelled as parameters of a `Ctx`
structure, following the spec's interface-only treatment of them.
-/

namespace LibrarianModel

/-- Raw byte content of a file. -/
abbrev Bytes := List Nat

/-- A file on disk: its path, base name, lowercase suffix is derived, content bytes. -/
structure SrcFile where
  path : String
  bytes : Bytes
deriving DecidableEq, Repr

/-- Python exception classes that the librarian code raises or catches.
`valueError` is used for the size ceiling and duplicate-hash rejections,
`fileNotFound` for missing paths, `runtimeError` for git/loader failures. -/
inductive PyErr where
  | fileNotFound (msg : String)
  | valueError (msg : String)
  | runtimeError (msg : String)
deriving DecidableEq, Repr

/-- The message carried by an exception (Python `str(e)`). -/
def errMsg : PyErr → String
  | .fileNotFound m => m
  | .valueError m => m
  | .runtimeError m => m

instance exceptDecEq {ε α : Type} [DecidableEq ε] [DecidableEq α] :
    DecidableEq (Except ε α)
  | .ok a, .ok b =>
    if h : a = b then .isTrue (by rw [h]) else .isFalse (by simp [h])
  | .error a, .error b =>
    if h : a = b then .isTrue (by rw [h]) else .isFalse (by simp [h])
  | .ok _, .error _ => .isFalse (by simp)
  | .error _, .ok _ => .isFalse (by simp)

/-- Python dict of string keys/values, as an association list with unique keys
maintained by the operations below. -/
abbrev Meta := List (String × String)

/-- Python `d.get(k)`. -/
def metaLookup : Meta → String → Option String
  | [], _ => none
  | kv :: rest, k => if kv.1 = k then some kv.2 else metaLookup rest k

/-- Python `d[k] = v`: replace the value when the key is present (keys are
unique in a dict), append at the end otherwise (insertion order). -/
def metaSet : Meta → String → String → Meta
  | [], k, v => [(k, v)]
  | kv :: rest, k, v => if kv.1 = k then (k, v) :: rest else kv :: metaSet rest k v

/-- Python `base.update(upd)`: set every key of `upd` into `base`, `upd` winning. -/
def metaUpdate (base upd : Meta) : Meta :=
  upd.foldl (fun acc kv => metaSet acc kv.1 kv.2) base

/-- Python truthiness of a dict. -/
def metaNonempty (m : Meta) : Bool :=
  !m.isEmpty

/-! ### Exception message texts used by `librarian.py` -/

/-- Message of the over-size `ValueError` (librarian.py line 106). -/
def sizeMsg (n : Nat) : String :=
  s!"File size ({n} bytes) exceeds maximum allowed size"

/-- Message of the duplicate-hash `ValueError` (librarian.py line 115). -/
def dupMsg (h : String) : String :=
  s!"File with hash {h} already exists in library"

/-- Message of the missing-file `FileNotFoundError` (librarian.py line 101). -/
def fileNotFoundMsg (p : String) : String :=
  s!"File not found: {p}"

/-- Message of the missing-path `FileNotFoundError` (librarian.py line 164). -/
def pathNotFoundMsg (p : String) : String :=
  s!"Path not found: {p}"

/-- Message of the ambiguity `ValueError` (librarian.py line 230). -/
def ambiguousMsg (n : Nat) : String :=
  s!"Found {n} matching files. Please provide more specific criteria."

/-- The keys of an association list are pairwise distinct (Python dicts always are). -/
def KeysNodup (m : Meta) : Prop :=
  (m.map (fun kv => kv.1)).Nodup

instance (m : Meta) : Decidable (KeysNodup m) := by
  unfold KeysNodup
  infer_instance

/-! ### Path and string helpers (Python `pathlib`/`str` operations used by the
source, written over character lists so that they evaluate by `decide`) -/

/-- Split a character list on a separator character. -/
def splitOnChar (sep : Char) (cs : List Char) : List (List Char) :=
  cs.foldr (fun ch acc =>
    match acc with
    | [] => if ch = sep then [[], []] else [[ch]]
    | g :: rest => if ch = sep then [] :: g :: rest else (ch :: g) :: rest) [[]]

/-- Python `s.strip()`. -/
def strTrim (s : String) : String :=
  String.mk (((s.toList.dropWhile Char.isWhitespace).reverse.dropWhile
    Char.isWhitespace).reverse)

/-- Python `s.startswith(pre)` / SQLAlchemy `startswith`. -/
def strStartsWith (s pre : String) : Bool :=
  s.toList.take pre.toList.length == pre.toList

/-- `Path(p).name`: the final path component. -/
def baseName (p : String) : String :=
  match (splitOnChar '/' p.toList).getLast? with
  | some cs => String.mk cs
  | none => p

/-- Index of the last `.` in a character list, if any. -/
def lastDotIdx (cs : List Char) : Option Nat :=
  (List.range cs.length).reverse.find? (fun i => cs.getD i ' ' == '.')

/-- `Path(p).suffix`: CPython returns `name[i:]` for `i = name.rfind('.')`
when `0 < i < len(name) - 1`, and the empty string otherwise. -/
def pathSuffix (p : String) : String :=
  let n := baseName p
  let cs := n.toList
  match lastDotIdx cs with
  | some i => if 0 < i ∧ i < cs.length - 1 then String.mk (cs.drop i) else ""
  | none => ""

/-- Python `str.lower()` restricted to ASCII as used on suffixes. -/
def strLower (s : String) : String :=
  String.mk (s.toList.map Char.toLower)

/-- Python `s.endswith(post)`. -/
def strEndsWith (s post : String) : Bool :=
  let cs := s.toList
  let ps := post.toList
  ps == cs.drop (cs.length - ps.length)

/-- SQL `LIKE '%sub%'` on a column value, i.e. substring containment. -/
def strContains (s sub : String) : Bool :=
  let cs := s.toList
  let ps := sub.toList
  (List.range (cs.length + 1)).any (fun i => ps == (cs.drop i).take ps.length)

/-! ### Vector store chunks and the ingestion tail of `document_ingestion.py` -/

/-- A vector-store point: chunk text plus its metadata dict
(`langchain_core.documents.Document`). -/
structure Chunk where
  content : String
  metadata : Meta
deriving DecidableEq, Repr

/-- `document_ingestion.inject_metadata` (lines 168-177): for each document,
when the extra dict is non-empty, copy the loader metadata and `update` it with
the extra dict, so extra keys win on conflicts. -/
def inject_metadata (docs : List Chunk) (metadata : Meta) : List Chunk :=
  docs.map (fun d =>
    if metaNonempty metadata then { d with metadata := metaUpdate d.metadata metadata }
    else d)

/-- `document_ingestion.finalize_and_save_docs` (lines 39-53): inject the extra
metadata when present, then hand the batch to the external vector store's
`add_documents` (`addDocs`, which may raise). Returns the written chunks and the
new collection contents. -/
def finalize_and_save_docs (addDocs : List Chunk → List Chunk → Except PyErr (List Chunk))
    (docs : List Chunk) (coll : List Chunk) (metadata : Meta) :
    Except PyErr (List Chunk × List Chunk) :=
  let docs := if metaNonempty metadata then inject_metadata docs metadata else docs
  match addDocs coll docs with
  | .error e => .error e
  | .ok coll2 => .ok (docs, coll2)

/-- `document_ingestion.save_any` (lines 143-165): dispatch to a per-format
loader (external: PyPDFLoader / UnstructuredLoader / ... plus cleansing and the
text splitter, here a single `loader` parameter keyed by the file), then
finalize and save. A loader failure propagates. -/
def save_any (loader : SrcFile → Except PyErr (List Chunk))
    (addDocs : List Chunk → List Chunk → Except PyErr (List Chunk))
    (f : SrcFile) (coll : List Chunk) (metadata : Meta) :
    Except PyErr (List Chunk × List Chunk) :=
  match loader f with
  | .error e => .error e
  | .ok docs => finalize_and_save_docs addDocs docs coll metadata

/-! ### MetadataIndex: `dao/dao_schema` record and `dao/library_file_dao.py` -/

/-- `LibraryFile` row: content hash and display name (the `created_at` column is
assigned by the storage engine and is not needed by any claim). -/
structure LibraryFile where
  hash_id : String
  file_name : String
deriving DecidableEq, Repr

/-- `LibraryFileDao.exist` with `collection_name=None` (lines 11-15): probe the
partition for a record with this exact hash. -/
def dao_exist (recs : List LibraryFile) (h : String) : Bool :=
  recs.any (fun r => r.hash_id == h)

/-- `LibraryFileDao.find` with `collection_name=None` (lines 17-36): optional
hash-prefix filter (`startswith`) and filename filter (`LIKE '%x%'`), ANDed. -/
def dao_find (recs : List LibraryFile) (hashPref : Option String) (filename : Option String) :
    List LibraryFile :=
  let recs := match hashPref with
    | some hp => recs.filter (fun r => strStartsWith r.hash_id hp)
    | none => recs
  match filename with
  | some fn => recs.filter (fun r => strContains r.file_name fn)
  | none => recs

/-! ### Per-collection partitions.

`BaseDao.__init__` (base_dao.py lines 9-15) opens
`sqlite:///<DB_SQLITE_PATH>-<collection_name>`: each collection name maps to an
independent backing database file. `LibraryFileDao.from_collection(name)` is
absent from src (only its call sites are); modelled from the spec:
"Each collection maps to an independent storage partition (a separate backing
file/table set) so that dropping one collection cannot affect another."
A partition table is an association list from collection name to contents. -/

/-- Contents of the partition for `name` (a partition never opened is empty:
`Base.metadata.create_all` creates the table lazily). -/
def partOf {α : Type} : List (String × List α) → String → List α
  | [], _ => []
  | q :: rest, name => if q.1 = name then q.2 else partOf rest name

/-- Replace (or create) the partition for `name`. -/
def setPart {α : Type} : List (String × List α) → String → List α → List (String × List α)
  | [], name, xs => [(name, xs)]
  | q :: rest, name, xs =>
    if q.1 = name then (name, xs) :: rest else q :: setPart rest name xs

/-- Remove the partition for `name` entirely (whole-collection delete). -/
def removePart {α : Type} : List (String × List α) → String → List (String × List α)
  | [], _ => []
  | q :: rest, name => if q.1 = name then removePart rest name else q :: removePart rest name

/-- Does a partition for `name` exist? -/
def hasPart {α : Type} : List (String × List α) → String → Bool
  | [], _ => false
  | q :: rest, name => q.1 == name || hasPart rest name

/-! ### Persisted configuration: `librarian_config.py` -/

/-- `DEFAULT_COLLECTION_NAME`. Modelled from the spec: `constants.py` is absent
from src; the spec says the current name "defaults to a well-known default name
if unset" and `BaseDao.__init__` uses `'default'` as its default partition. -/
def DEFAULT_COLLECTION_NAME : String := "default"

/-- `librarian_config.get_collection_name` (lines 26-32): the persisted value,
stripped; falls back to the default when unset or blank. The config file is
modelled as `Option String` (the stored `collection_name` key, `none` = unset). -/
def get_collection_name (cfg : Option String) : String :=
  let value := strTrim (cfg.getD "")
  if value ≠ "" then value else DEFAULT_COLLECTION_NAME

/-- `librarian_config.save_collection_name` (lines 35-42): strip the name,
substitute the default when blank, and persist it. -/
def save_collection_name (name : String) : Option String :=
  let sanitized := strTrim name
  some (if sanitized = "" then DEFAULT_COLLECTION_NAME else sanitized)

/-! ### World state and external collaborators -/

/-- What the filesystem holds at a path: a regular file, a directory (whose
recursive `rglob('*')` file listing, in discovery order, is given as paths), or
nothing. -/
inductive PathEntry where
  | file (f : SrcFile)
  | dir (listing : List String)
  | missing
deriving DecidableEq, Repr

/-- The persistent world the librarian mutates: the per-collection MetadataIndex
partitions (separate sqlite files), the per-collection vector-store point sets,
and the persisted config (`config.json`'s `collection_name` key). -/
structure Store where
  dbParts : List (String × List LibraryFile)
  vsColls : List (String × List Chunk)
  config : Option String
deriving DecidableEq, Repr

/-- External collaborators, per the spec's interface-only treatment:
`hashFn` is `hashlib.sha256(...).hexdigest()` (a pure function of the bytes),
`loader` is the per-format load + cleanse + split pipeline,
`addDocs` is the vector store's `add_documents`,
`fs` is the filesystem, `gitClone` is `git clone` (error message, or the local
target path the repository was fetched to). `maxFileSize` is
`MAX_FILE_SIZE_BYTES` — modelled from the spec: `constants.py` is absent from
src; the spec specifies "a fixed byte-count ceiling enforced before hashing or
loading" without fixing its value. -/
structure Ctx where
  hashFn : Bytes → String
  loader : SrcFile → Except PyErr (List Chunk)
  addDocs : List Chunk → List Chunk → Except PyErr (List Chunk)
  fs : String → PathEntry
  gitClone : String → Except String String
  maxFileSize : Nat

/-- Python `Path(p).exists()` / `is_file()` against the modelled filesystem. -/
def pathExists (c : Ctx) (p : String) : Bool :=
  match c.fs p with
  | .missing => false
  | _ => true

/-- `calculate_file_hash` (librarian.py lines 20-23): SHA256 hex digest of the
file's bytes — a pure function of the content only. -/
def calculate_file_hash (hashFn : Bytes → String) (f : SrcFile) : String :=
  hashFn f.bytes

/-- Observable steps of `Librarian.add_file`, in the order the code performs
them, used to state the ordering claims. -/
inductive Ev where
  | existsCheck
  | sizeCheck
  | hashed
  | dupCheck
  | vectorWrite
  | indexInsert
deriving DecidableEq, Repr

/-- `Librarian.add_file` (librarian.py lines 89-134), over the current
collection `curr` (the vector-store handle's collection name). Returns the step
trace, the resulting store (unchanged up to the point an exception is raised),
and the exception if one was raised:
1. `is_file` check → `FileNotFoundError`;
2. size check against `MAX_FILE_SIZE_BYTES` → `ValueError`;
3. hash;
4. duplicate probe of the MetadataIndex partition → `ValueError`;
5. `save_any` (vector-store write) — errors propagate;
6. MetadataIndex insert. -/
def add_file (c : Ctx) (st : Store) (curr : String) (p : String)
    (additional_metadata : Option Meta) : List Ev × Store × Option PyErr :=
  match c.fs p with
  | .file f =>
    let file_size := f.bytes.length
    if file_size > c.maxFileSize then
      ([.existsCheck, .sizeCheck], st, some (.valueError (sizeMsg file_size)))
    else
      let file_hash := calculate_file_hash c.hashFn f
      let recs := partOf st.dbParts curr
      if dao_exist recs file_hash then
        ([.existsCheck, .sizeCheck, .hashed, .dupCheck], st,
          some (.valueError (dupMsg file_hash)))
      else
        let metadata := metaUpdate [("hash_id", file_hash)] (additional_metadata.getD [])
        match save_any c.loader c.addDocs f (partOf st.vsColls curr) metadata with
        | .error e =>
          ([.existsCheck, .sizeCheck, .hashed, .dupCheck, .vectorWrite], st, some e)
        | .ok r =>
          let st1 : Store := { st with vsColls := setPart st.vsColls curr r.2 }
          let st2 : Store :=
            { st1 with dbParts := setPart st1.dbParts curr (recs ++ [⟨file_hash, baseName p⟩]) }
          ([.existsCheck, .sizeCheck, .hashed, .dupCheck, .vectorWrite, .indexInsert], st2, none)
  | _ => ([.existsCheck], st, some (.fileNotFound (fileNotFoundMsg p)))

/-- `Librarian.switch_collection` (lines 81-87): persist the name, then rebind
the vector-store handle to `get_collection_name()` of the new config. Returns
the new store and the handle's collection name. -/
def switch_collection (st : Store) (name : String) : Store × String :=
  let cfg := save_collection_name name
  ({ st with config := cfg }, get_collection_name cfg)

/-- `Librarian.drop_collection` (lines 206-212): delete the entire vector-store
collection (`VectorStoreService.delete_collection` is absent from src; modelled
from the spec: "whole-collection delete" / `drop_collection()` on the adapter),
then delete every record of the current MetadataIndex partition
(`LibraryFileDao.from_collection(...).delete()` with no clause). The persisted
config is not touched. -/
def drop_collection (st : Store) (curr : String) : Store :=
  let st1 : Store := { st with vsColls := removePart st.vsColls curr }
  { st1 with dbParts := setPart st1.dbParts curr [] }

/-- Observable deletion steps of `Librarian.remove`, in code order. -/
inductive RmEv where
  | vectorDelete (hash_id : String)
  | indexDelete (hash_id : String)
deriving DecidableEq, Repr

/-- `Librarian.remove` (lines 214-257): find matching records (hash-prefix
and/or filename filters); zero matches → `False` without touching either store;
more than one → `ValueError`, nothing deleted; exactly one → delete the
vector-store points whose `metadata.hash_id` equals the record's hash, then
delete the MetadataIndex records with that hash, and return `True`. -/
def removeFile (st : Store) (curr : String) (hashPref : Option String)
    (filename : Option String) : List RmEv × Store × Except PyErr Bool :=
  let recs := partOf st.dbParts curr
  let files := dao_find recs hashPref filename
  match files with
  | [] => ([], st, .ok false)
  | f :: rest =>
    if rest.length > 0 then
      ([], st, .error (.valueError (ambiguousMsg files.length)))
    else
      let hash_id := f.hash_id
      let coll := partOf st.vsColls curr
      let coll2 := coll.filter (fun ch => metaLookup ch.metadata "hash_id" != some hash_id)
      let st1 : Store := { st with vsColls := setPart st.vsColls curr coll2 }
      let recs2 := recs.filter (fun r => r.hash_id != hash_id)
      let st2 : Store := { st1 with dbParts := setPart st1.dbParts curr recs2 }
      ([.vectorDelete hash_id, .indexDelete hash_id], st2, .ok true)

/-- `Librarian.count_files` (lines 194-196): record count of the partition. -/
def count_files (st : Store) (curr : String) : Nat :=
  (partOf st.dbParts curr).length

/-! ### The `add_by_path` batch generator (librarian.py lines 136-189) -/

/-- Per-file outcome tag yielded by the batch. -/
inductive Tag where
  | added
  | skipped
  | error
deriving DecidableEq, Repr

/-- One yielded tuple `(status, file_path, error_msg)`. -/
structure Outcome where
  tag : Tag
  path : String
  msg : Option String
deriving DecidableEq, Repr

/-- The per-file `try/except` classification inside the loop (lines 180-186):
no exception → `added`; `ValueError` (duplicate or over-size) → `skipped`;
any other exception → `error`. -/
def classify : Option PyErr → Tag
  | none => .added
  | some (.valueError _) => .skipped
  | some _ => .error

/-- The yielded message: `None` on success, `str(e)` otherwise. -/
def msgOf : Option PyErr → Option String
  | none => none
  | some e => some (errMsg e)

/-- The `for file_path in file_paths` loop body (lines 179-186): call
`add_file` on each path in discovery order, classifying each per-file failure
and continuing with the state left by the attempt. Returns the yielded
outcomes and the final store. -/
def runBatchFiles (c : Ctx) : Store → String → Meta → List String → List Outcome × Store
  | st, _, _, [] => ([], st)
  | st, curr, md, p :: rest =>
    let a := add_file c st curr p (some md)
    let o : Outcome := ⟨classify a.2.2, p, msgOf a.2.2⟩
    let r := runBatchFiles c a.2.1 curr md rest
    (o :: r.1, r.2)

/-- `document_ingestion.get_supported_suffixes` (lines 180-192). -/
def get_supported_suffixes : List String :=
  [".pdf", ".epub", ".md", ".txt"]

/-- A Python generator frame, abstracted to what `add_by_path` uses: yield an
outcome, raise, finish, or run a body under a `finally` that removes the given
directories. -/
inductive GenProg where
  | yieldOut (o : Outcome) (rest : GenProg)
  | raiseErr (e : PyErr)
  | done
  | withFinally (body : GenProg) (rmtreed : List String)
deriving DecidableEq, Repr

/-- A straight-line generator that yields the given outcomes and finishes. -/
def progOfOutcomes : List Outcome → GenProg
  | [] => .done
  | o :: rest => .yieldOut o (progOfOutcomes rest)

/-- Python generator semantics for a consumer that requests at most `k` items
and then closes the generator. Returns the observed outcomes, the directories
removed by `finally` blocks, and the exception escaping to the consumer, if
any. A budget of `0` means the generator is never started, so no code runs;
once a `withFinally` frame has been entered, its `finally` runs on every exit —
completion, an escaping exception, or the `GeneratorExit` thrown by `close()`
(which the loop's `except Exception` does not catch, as `GeneratorExit` is a
`BaseException`). -/
def runGen : GenProg → Nat → List Outcome × List String × Option PyErr
  | _, 0 => ([], [], none)
  | .done, _ + 1 => ([], [], none)
  | .raiseErr e, _ + 1 => ([], [], some e)
  | .yieldOut o rest, k + 1 =>
    let r := runGen rest k
    (o :: r.1, r.2.1, r.2.2)
  | .withFinally body fin, k + 1 =>
    let r := runGen body (k + 1)
    (r.1, r.2.1 ++ fin, r.2.2)

/-- `Librarian.add_by_path` (lines 136-189) as a generator program applied to
the final store it produces:
* a path ending in `.git` that does not exist locally is cloned
  (`clone_git_repo`, lines 26-61, raising `RuntimeError` on failure, which the
  generator converts into a single `error` yield and a return, lines 160-162);
  on success `cloned_from_git` is set and `source_root` records the URL;
* any other non-existent path raises `FileNotFoundError` (line 164);
* a file is processed alone; a directory is recursed, filtered to the
  supported suffixes (lowercased), with `source_root` set to the directory;
* the per-file loop runs under `try/finally`, the `finally` removing the
  cloned directory when one was fetched (lines 187-189). -/
def add_by_path (c : Ctx) (st : Store) (curr : String) (path : String) :
    GenProg × Store :=
  if strEndsWith path ".git" && !pathExists c path then
    match c.gitClone path with
    | .error e => (.yieldOut ⟨.error, path, some e⟩ .done, st)
    | .ok target =>
      let md : Meta := metaSet [] "source_root" path
      match c.fs target with
      | .file _ =>
        let r := runBatchFiles c st curr md [target]
        (.withFinally (progOfOutcomes r.1) [target], r.2)
      | .dir listing =>
        let file_paths := listing.filter
          (fun q => get_supported_suffixes.contains (strLower (pathSuffix q)))
        let md := metaSet md "source_root" target
        let r := runBatchFiles c st curr md file_paths
        (.withFinally (progOfOutcomes r.1) [target], r.2)
      | .missing =>
        (.withFinally (progOfOutcomes []) [target], st)
  else if !pathExists c path then
    (.raiseErr (.fileNotFound (pathNotFoundMsg path)), st)
  else
    match c.fs path with
    | .file _ =>
      let r := runBatchFiles c st curr [] [path]
      (.withFinally (progOfOutcomes r.1) [], r.2)
    | .dir listing =>
      let file_paths := listing.filter
        (fun q => get_supported_suffixes.contains (strLower (pathSuffix q)))
      let md : Meta := metaSet [] "source_root" path
      let r := runBatchFiles c st curr md file_paths
      (.withFinally (progOfOutcomes r.1) [], r.2)
    | .missing =>
      (.withFinally (progOfOutcomes []) [], st)

/-! ### CLI layer: `cli/librarian_cli.py` -/

/-- Python truthiness of a `click` option value (`None` or `''` are falsy). -/
def truthyOpt : Option String → Bool
  | none => false
  | some s => s ≠ ""

/-- The guard of the `rm` command (`librarian_rm`, cli lines 114-123):
`if not hash_prefix and not filename:` print an error and return without
constructing a `Librarian` or calling `remove`. -/
def cli_rm_rejects (hashPref : Option String) (filename : Option String) : Bool :=
  !truthyOpt hashPref && !truthyOpt filename

/-- The `drop` command (`librarian_drop`, cli lines 93-111) after confirmation:
drop the store, then persist `DEFAULT_COLLECTION_NAME` — the name reset lives
in the CLI, not in `Librarian.drop_collection`. -/
def cli_drop (st : Store) (curr : String) : Store :=
  let st1 := drop_collection st curr
  { st1 with config := save_collection_name DEFAULT_COLLECTION_NAME }

/-! ### Concrete sample data used to evaluate the theorems -/

/-- A store with one `"default"`-partition record. -/
def singleRecordStore : Store :=
  { dbParts := [("default", [⟨"abcd1234", "a.txt"⟩])],
    vsColls := [("default", [⟨"some text", [("hash_id", "abcd1234")]⟩])],
    config := none }

/-- A store with two records whose filenames share a substring but whose
hashes differ. -/
def twoRecordStore : Store :=
  { dbParts := [("default",
      [⟨"aaaa1111", "report.txt"⟩, ⟨"bbbb2222", "report.pdf"⟩])],
    vsColls := [("default",
      [⟨"alpha", [("hash_id", "aaaa1111")]⟩,
       ⟨"beta", [("hash_id", "bbbb2222")]⟩])],
    config := none }

/-- The empty store. -/
def emptyStore : Store :=
  { dbParts := [], vsColls := [], config := none }

/-- A context whose filesystem holds the small text file `a.txt`, whose loader
yields one chunk per file, and whose vector store accepts every write. -/
def okCtx : Ctx :=
  { hashFn := fun bs => toString bs,
    loader := fun f => .ok [⟨"chunk of " ++ f.path, [("source", f.path)]⟩],
    addDocs := fun coll docs => .ok (coll ++ docs),
    fs := fun q => if q = "a.txt" then .file ⟨"a.txt", [1, 2, 3]⟩ else .missing,
    gitClone := fun _ => .error "git command not found in system",
    maxFileSize := 100 }

/-- `okCtx` with a size ceiling below the size of `a.txt`. -/
def smallCapCtx : Ctx :=
  { okCtx with maxFileSize := 2 }

/-- `okCtx` with a loader that always fails. -/
def loadFailCtx : Ctx :=
  { okCtx with loader := fun _ => .error (.runtimeError "parse failure") }

/-- `okCtx` with two byte-identical files under different names. -/
def dupCtx : Ctx :=
  { okCtx with fs := fun q =>
      if q = "a.txt" then .file ⟨"a.txt", [1, 2, 3]⟩
      else if q = "b.txt" then .file ⟨"b.txt", [1, 2, 3]⟩
      else .missing }

/-- `okCtx` with a git remote that clones `repo.git` to a local directory
holding one markdown file, and fails for every other URL. -/
def gitCtx : Ctx :=
  { okCtx with
    gitClone := fun url =>
      if url = "https://example.com/repo.git" then .ok "gitrepo/repo"
      else .error "Failed to clone repository: network unreachable",
    fs := fun q =>
      if q = "gitrepo/repo" then .dir ["gitrepo/repo/readme.md"]
      else if q = "gitrepo/repo/readme.md" then
        .file ⟨"gitrepo/repo/readme.md", [5]⟩
      else .missing }

/-- A context with a directory holding one valid `.txt` file, one over-size
file, and one `.pdf` the loader cannot parse. -/
def batchCtx : Ctx :=
  { okCtx with
    fs := fun q =>
      if q = "docs" then .dir ["docs/good.txt", "docs/huge.txt", "docs/bad.pdf"]
      else if q = "docs/good.txt" then .file ⟨"docs/good.txt", [1, 2, 3]⟩
      else if q = "docs/huge.txt" then
        .file ⟨"docs/huge.txt", List.replicate 101 7⟩
      else if q = "docs/bad.pdf" then .file ⟨"docs/bad.pdf", [9]⟩
      else .missing,
    loader := fun f =>
      if f.path = "docs/bad.pdf" then .error (.runtimeError "Unprocessable entity")
      else .ok [⟨"chunk of " ++ f.path, [("source", f.path)]⟩] }

/-! ### Dictionary lemmas -/

theorem metaLookup_metaSet_self (m : Meta) (k v : String) :
    metaLookup (metaSet m k v) k = some v := by
  induction m with
  | nil => simp [metaSet, metaLookup]
  | cons kv rest ih =>
    by_cases h : kv.1 = k
    · simp [metaSet, metaLookup, h]
    · simp [metaSet, metaLookup, h, ih]

theorem metaLookup_metaSet_ne (m : Meta) (k v q : String) (h : q ≠ k) :
    metaLookup (metaSet m k v) q = metaLookup m q := by
  have hkq : ¬ k = q := fun hh => h hh.symm
  induction m with
  | nil => simp [metaSet, metaLookup, hkq]
  | cons kv rest ih =>
    by_cases hk : kv.1 = k
    · have hq : ¬ kv.1 = q := fun hh => hkq (hk ▸ hh)
      simp [metaSet, metaLookup, hk, hkq, hq]
    · by_cases hq : kv.1 = q
      · simp [metaSet, metaLookup, hk, hq, hkq, h]
      · simp [metaSet, metaLookup, hk, hq, hkq, h, ih]

theorem metaLookup_none_of_forall (m : Meta) (k : String)
    (h : ∀ kv ∈ m, kv.1 ≠ k) : metaLookup m k = none := by
  induction m with
  | nil => rfl
  | cons kv rest ih =>
    have h1 : kv.1 ≠ k := h kv (List.mem_cons_self kv rest)
    simp only [metaLookup, if_neg h1]
    exact ih (fun q hq => h q (List.mem_cons_of_mem kv hq))

theorem forall_of_metaLookup_none (m : Meta) (k : String)
    (h : metaLookup m k = none) : ∀ kv ∈ m, kv.1 ≠ k := by
  induction m with
  | nil => simp
  | cons kv rest ih =>
    intro q hq
    by_cases h1 : kv.1 = k
    · simp [metaLookup, h1] at h
    · simp only [metaLookup, if_neg h1] at h
      rcases List.mem_cons.mp hq with hh | hh
      · rw [hh]; exact h1
      · exact ih h q hh

theorem metaUpdate_lookup_of_not_mem (base upd : Meta) (k : String)
    (h : ∀ kv ∈ upd, kv.1 ≠ k) :
    metaLookup (metaUpdate base upd) k = metaLookup base k := by
  induction upd generalizing base with
  | nil => rfl
  | cons kv rest ih =>
    have h1 : kv.1 ≠ k := h kv (List.mem_cons_self kv rest)
    have h2 : ∀ q ∈ rest, q.1 ≠ k := fun q hq => h q (List.mem_cons_of_mem kv hq)
    show metaLookup (metaUpdate (metaSet base kv.1 kv.2) rest) k = metaLookup base k
    rw [ih (metaSet base kv.1 kv.2) h2]
    exact metaLookup_metaSet_ne base kv.1 kv.2 k (fun hh => h1 hh.symm)

theorem metaUpdate_lookup_of_lookup (base upd : Meta) (k v : String)
    (hn : KeysNodup upd) (h : metaLookup upd k = some v) :
    metaLookup (metaUpdate base upd) k = some v := by
  induction upd generalizing base with
  | nil => simp [metaLookup] at h
  | cons kv rest ih =>
    have hn1 : kv.1 ∉ rest.map (fun q => q.1) ∧ KeysNodup rest := by
      simpa [KeysNodup, List.nodup_cons] using hn
    by_cases h1 : kv.1 = k
    · simp only [metaLookup, if_pos h1] at h
      have hrest : ∀ q ∈ rest, q.1 ≠ k := by
        intro q hq hqk
        exact hn1.1 (h1 ▸ hqk ▸ List.mem_map_of_mem (fun z => z.1) hq)
      show metaLookup (metaUpdate (metaSet base kv.1 kv.2) rest) k = some v
      rw [metaUpdate_lookup_of_not_mem _ rest k hrest, h1,
        metaLookup_metaSet_self base k kv.2]
      rw [← h]
    · simp only [metaLookup, if_neg h1] at h
      exact ih (metaSet base kv.1 kv.2) hn1.2 h

theorem keys_metaSet (m : Meta) (k v : String) :
    (metaSet m k v).map (fun q => q.1) =
      if metaLookup m k = none then m.map (fun q => q.1) ++ [k]
      else m.map (fun q => q.1) := by
  induction m with
  | nil => simp [metaSet, metaLookup]
  | cons kv rest ih =>
    by_cases h : kv.1 = k
    · simp [metaSet, metaLookup, h]
    · simp only [metaSet, if_neg h, metaLookup, List.map_cons, ih]
      by_cases hr : metaLookup rest k = none <;> simp [hr]

theorem keysNodup_metaSet (m : Meta) (k v : String) (h : KeysNodup m) :
    KeysNodup (metaSet m k v) := by
  unfold KeysNodup
  rw [keys_metaSet]
  by_cases hl : metaLookup m k = none
  · have hk : k ∉ m.map (fun q => q.1) := by
      intro hmem
      rcases List.mem_map.mp hmem with ⟨q, hq, hqk⟩
      exact forall_of_metaLookup_none m k hl q hq hqk
    simp only [if_pos hl]
    exact List.Nodup.append h (List.nodup_singleton k)
      (by simpa [List.disjoint_singleton] using hk)
  · simpa [if_neg hl] using h

theorem keysNodup_metaUpdate (base upd : Meta) (h : KeysNodup base) :
    KeysNodup (metaUpdate base upd) := by
  induction upd generalizing base with
  | nil => exact h
  | cons kv rest ih =>
    exact ih (metaSet base kv.1 kv.2) (keysNodup_metaSet base kv.1 kv.2 h)

theorem metaSet_length_pos (m : Meta) (k v : String) :
    0 < (metaSet m k v).length := by
  induction m with
  | nil => simp [metaSet]
  | cons kv rest ih =>
    by_cases h : kv.1 = k <;> simp [metaSet, h]

theorem metaUpdate_length_pos (base upd : Meta) (h : 0 < base.length) :
    0 < (metaUpdate base upd).length := by
  induction upd generalizing base with
  | nil => exact h
  | cons kv rest ih =>
    exact ih (metaSet base kv.1 kv.2) (metaSet_length_pos base kv.1 kv.2)

theorem metaNonempty_metaUpdate (base upd : Meta) (h : 0 < base.length) :
    metaNonempty (metaUpdate base upd) = true := by
  have := metaUpdate_length_pos base upd h
  unfold metaNonempty
  cases hm : metaUpdate base upd with
  | nil => rw [hm] at this; simp at this
  | cons a l => simp [List.isEmpty]

/-! ### Partition lemmas -/

theorem partOf_setPart_self {α : Type} (parts : List (String × List α)) (n : String)
    (xs : List α) : partOf (setPart parts n xs) n = xs := by
  induction parts with
  | nil => simp [setPart, partOf]
  | cons q rest ih =>
    by_cases h : q.1 = n
    · simp [setPart, partOf, h]
    · simp [setPart, partOf, h, ih]

theorem partOf_setPart_ne {α : Type} (parts : List (String × List α)) (n m : String)
    (xs : List α) (h : m ≠ n) : partOf (setPart parts n xs) m = partOf parts m := by
  have hnm : ¬ n = m := fun hh => h hh.symm
  induction parts with
  | nil => simp [setPart, partOf, hnm]
  | cons q rest ih =>
    by_cases hq : q.1 = n
    · have hqm : ¬ q.1 = m := fun hh => hnm (hq ▸ hh)
      simp [setPart, partOf, hq, hnm, hqm]
    · by_cases hm : q.1 = m
      · simp [setPart, partOf, hq, hm, h, hnm]
      · simp [setPart, partOf, hq, hm, h, hnm, ih]

theorem partOf_removePart_ne {α : Type} (parts : List (String × List α)) (n m : String)
    (h : m ≠ n) : partOf (removePart parts n) m = partOf parts m := by
  have hnm : ¬ n = m := fun hh => h hh.symm
  induction parts with
  | nil => rfl
  | cons q rest ih =>
    by_cases hq : q.1 = n
    · have hm : ¬ q.1 = m := fun hh => hnm (hq ▸ hh)
      simp [removePart, partOf, hq, hm, h, hnm, ih]
    · by_cases hm : q.1 = m
      · simp [removePart, partOf, hq, hm, h, hnm]
      · simp [removePart, partOf, hq, hm, h, hnm, ih]

theorem hasPart_removePart_self {α : Type} (parts : List (String × List α)) (n : String) :
    hasPart (removePart parts n) n = false := by
  induction parts with
  | nil => rfl
  | cons q rest ih =>
    by_cases hq : q.1 = n
    · simp [removePart, hq, ih]
    · simp [removePart, hasPart, hq, ih]

/-! ### `add_file` branch characterizations -/

theorem add_file_oversize (c : Ctx) (st : Store) (curr p : String) (md : Option Meta)
    (f : SrcFile) (hfp : c.fs p = .file f) (hsz : f.bytes.length > c.maxFileSize) :
    add_file c st curr p md =
      ([.existsCheck, .sizeCheck], st,
        some (.valueError (sizeMsg f.bytes.length))) := by
  simp [add_file, hfp, hsz]

theorem add_file_dup (c : Ctx) (st : Store) (curr p : String) (md : Option Meta)
    (f : SrcFile) (hfp : c.fs p = .file f) (hsz : ¬ f.bytes.length > c.maxFileSize)
    (hdup : dao_exist (partOf st.dbParts curr) (c.hashFn f.bytes) = true) :
    add_file c st curr p md =
      ([.existsCheck, .sizeCheck, .hashed, .dupCheck], st,
        some (.valueError (dupMsg (c.hashFn f.bytes)))) := by
  simp [add_file, hfp, hsz, calculate_file_hash, hdup]

theorem add_file_writeFail (c : Ctx) (st : Store) (curr p : String) (md : Option Meta)
    (f : SrcFile) (e : PyErr) (hfp : c.fs p = .file f)
    (hsz : ¬ f.bytes.length > c.maxFileSize)
    (hdup : dao_exist (partOf st.dbParts curr) (c.hashFn f.bytes) = false)
    (hsv : save_any c.loader c.addDocs f (partOf st.vsColls curr)
      (metaUpdate [("hash_id", c.hashFn f.bytes)] (md.getD [])) = .error e) :
    add_file c st curr p md =
      ([.existsCheck, .sizeCheck, .hashed, .dupCheck, .vectorWrite], st, some e) := by
  simp [add_file, hfp, hsz, calculate_file_hash, hdup, hsv]

theorem add_file_notFound (c : Ctx) (st : Store) (curr p : String) (md : Option Meta)
    (hfp : ∀ f, c.fs p ≠ .file f) :
    add_file c st curr p md =
      ([.existsCheck], st, some (.fileNotFound (fileNotFoundMsg p))) := by
  unfold add_file
  cases hfs : c.fs p with
  | file f => exact absurd hfs (hfp f)
  | dir l => rfl
  | missing => rfl

theorem add_file_ok_spec (c : Ctx) (st : Store) (curr p : String) (md : Option Meta)
    (f : SrcFile) (hfp : c.fs p = .file f)
    (hok : (add_file c st curr p md).2.2 = none) :
    ¬ f.bytes.length > c.maxFileSize ∧
    dao_exist (partOf st.dbParts curr) (c.hashFn f.bytes) = false ∧
    (add_file c st curr p md).1 =
      [.existsCheck, .sizeCheck, .hashed, .dupCheck, .vectorWrite, .indexInsert] ∧
    ∃ docs coll2,
      c.loader f = .ok docs ∧
      c.addDocs (partOf st.vsColls curr)
        (inject_metadata docs
          (metaUpdate [("hash_id", c.hashFn f.bytes)] (md.getD []))) = .ok coll2 ∧
      (add_file c st curr p md).2.1 =
        { st with
            vsColls := setPart st.vsColls curr coll2,
            dbParts := setPart st.dbParts curr
              (partOf st.dbParts curr ++ [⟨c.hashFn f.bytes, baseName p⟩]) } := by
  by_cases hsz : f.bytes.length > c.maxFileSize
  · rw [add_file_oversize c st curr p md f hfp hsz] at hok
    simp at hok
  · by_cases hdup : dao_exist (partOf st.dbParts curr) (c.hashFn f.bytes) = true
    · rw [add_file_dup c st curr p md f hfp hsz hdup] at hok
      simp at hok
    · simp only [Bool.not_eq_true] at hdup
      cases hld : c.loader f with
      | error e =>
        have hsv : save_any c.loader c.addDocs f (partOf st.vsColls curr)
            (metaUpdate [("hash_id", c.hashFn f.bytes)] (md.getD [])) = .error e := by
          simp [save_any, hld]
        rw [add_file_writeFail c st curr p md f e hfp hsz hdup hsv] at hok
        simp at hok
      | ok docs =>
        have hne : metaNonempty
            (metaUpdate [("hash_id", c.hashFn f.bytes)] (md.getD [])) = true :=
          metaNonempty_metaUpdate _ _ (by simp)
        cases had : c.addDocs (partOf st.vsColls curr)
            (inject_metadata docs
              (metaUpdate [("hash_id", c.hashFn f.bytes)] (md.getD []))) with
        | error e =>
          have hsv : save_any c.loader c.addDocs f (partOf st.vsColls curr)
              (metaUpdate [("hash_id", c.hashFn f.bytes)] (md.getD [])) = .error e := by
            simp [save_any, hld, finalize_and_save_docs, hne, had]
          rw [add_file_writeFail c st curr p md f e hfp hsz hdup hsv] at hok
          simp at hok
        | ok coll2 =>
          have hsv : save_any c.loader c.addDocs f (partOf st.vsColls curr)
              (metaUpdate [("hash_id", c.hashFn f.bytes)] (md.getD [])) =
              .ok (inject_metadata docs
                (metaUpdate [("hash_id", c.hashFn f.bytes)] (md.getD [])), coll2) := by
            simp [save_any, hld, finalize_and_save_docs, hne, had]
          refine ⟨hsz, hdup, ?_, docs, coll2, rfl, had, ?_⟩ <;>
            simp [add_file, hfp, hsz, calculate_file_hash, hdup, hsv]

theorem add_file_ok_intro (c : Ctx) (st : Store) (curr p : String) (md : Option Meta)
    (f : SrcFile) (docs : List Chunk) (coll2 : List Chunk)
    (hfp : c.fs p = .file f) (hsz : ¬ f.bytes.length > c.maxFileSize)
    (hdup : dao_exist (partOf st.dbParts curr) (c.hashFn f.bytes) = false)
    (hld : c.loader f = .ok docs)
    (had : c.addDocs (partOf st.vsColls curr)
      (inject_metadata docs
        (metaUpdate [("hash_id", c.hashFn f.bytes)] (md.getD []))) = .ok coll2) :
    add_file c st curr p md =
      ([.existsCheck, .sizeCheck, .hashed, .dupCheck, .vectorWrite, .indexInsert],
        { st with
            vsColls := setPart st.vsColls curr coll2,
            dbParts := setPart st.dbParts curr
              (partOf st.dbParts curr ++ [⟨c.hashFn f.bytes, baseName p⟩]) },
        none) := by
  have hne : metaNonempty
      (metaUpdate [("hash_id", c.hashFn f.bytes)] (md.getD [])) = true :=
    metaNonempty_metaUpdate _ _ (by simp)
  have hsv : save_any c.loader c.addDocs f (partOf st.vsColls curr)
      (metaUpdate [("hash_id", c.hashFn f.bytes)] (md.getD [])) =
      .ok (inject_metadata docs
        (metaUpdate [("hash_id", c.hashFn f.bytes)] (md.getD [])), coll2) := by
    simp [save_any, hld, finalize_and_save_docs, hne, had]
  simp [add_file, hfp, hsz, calculate_file_hash, hdup, hsv]

theorem drop_collection_dbParts (st : Store) (curr : String) :
    (drop_collection st curr).dbParts = setPart st.dbParts curr [] := rfl

theorem drop_collection_vsColls (st : Store) (curr : String) :
    (drop_collection st curr).vsColls = removePart st.vsColls curr := rfl

theorem add_file_store_of_err (c : Ctx) (st : Store) (curr p : String) (md : Option Meta) :
    (add_file c st curr p md).2.2 = none ∨ (add_file c st curr p md).2.1 = st := by
  cases hfs : c.fs p with
  | file f =>
    by_cases hsz : f.bytes.length > c.maxFileSize
    · rw [add_file_oversize c st curr p md f hfs hsz]; exact .inr rfl
    · by_cases hdup : dao_exist (partOf st.dbParts curr) (c.hashFn f.bytes) = true
      · rw [add_file_dup c st curr p md f hfs hsz hdup]; exact .inr rfl
      · simp only [Bool.not_eq_true] at hdup
        cases hsv : save_any c.loader c.addDocs f (partOf st.vsColls curr)
            (metaUpdate [("hash_id", c.hashFn f.bytes)] (md.getD [])) with
        | error e =>
          rw [add_file_writeFail c st curr p md f e hfs hsz hdup hsv]; exact .inr rfl
        | ok r =>
          refine .inl ?_
          simp [add_file, hfs, hsz, calculate_file_hash, hdup, hsv]
  | dir l =>
    rw [add_file_notFound c st curr p md (by simp [hfs])]; exact .inr rfl
  | missing =>
    rw [add_file_notFound c st curr p md (by simp [hfs])]; exact .inr rfl

/-! ### Generator and batch lemmas -/

theorem runGen_progOfOutcomes (os : List Outcome) (k : Nat) :
    runGen (progOfOutcomes os) k = (os.take k, [], none) := by
  induction os generalizing k with
  | nil => cases k <;> simp [progOfOutcomes, runGen]
  | cons o rest ih =>
    cases k with
    | zero => simp [runGen]
    | succ k => simp [progOfOutcomes, runGen, ih]

theorem runGen_withFinally_outcomes (os : List Outcome) (fin : List String) (k : Nat)
    (hk : 1 ≤ k) :
    runGen (.withFinally (progOfOutcomes os) fin) k = (os.take k, fin, none) := by
  cases k with
  | zero => omega
  | succ k => simp [runGen, runGen_progOfOutcomes]

theorem runBatchFiles_length (c : Ctx) (st : Store) (curr : String) (md : Meta)
    (ps : List String) :
    (runBatchFiles c st curr md ps).1.length = ps.length := by
  induction ps generalizing st with
  | nil => rfl
  | cons p rest ih => simp [runBatchFiles, ih]

theorem dao_exist_append_self (recs : List LibraryFile) (h n : String) :
    dao_exist (recs ++ [⟨h, n⟩]) h = true := by
  simp [dao_exist]

theorem countP_of_dao_exist_false (recs : List LibraryFile) (h : String)
    (hd : dao_exist recs h = false) :
    recs.countP (fun r => r.hash_id == h) = 0 := by
  rw [List.countP_eq_zero]
  intro a ha hc
  have : recs.any (fun r => r.hash_id == h) = true := List.any_of_mem ha hc
  rw [dao_exist] at hd
  rw [hd] at this
  exact Bool.false_ne_true this

/-! ### Claim theorems -/

/-- C1 (counterexample): `drop_collection()` does not reset the persisted
current-collection name. Starting from a store whose persisted name is the
default, after `switch("work")` then `drop_collection()`, `current_name()`
(`get_collection_name`) returns `"work"`, not the default — even though the
`"work"` partition count is indeed 0. -/
theorem C1_counterexample :
    let st0 : Store :=
      { dbParts := [("work", [⟨"h1", "a.txt"⟩])],
        vsColls := [("work", [⟨"some text", [("hash_id", "h1")]⟩])],
        config := some "default" }
    let pr := switch_collection st0 "work"
    let st2 := drop_collection pr.1 pr.2
    get_collection_name st2.config = "work" ∧
    get_collection_name st2.config ≠ DEFAULT_COLLECTION_NAME ∧
    count_files st2 "work" = 0 := by
  decide

/-- C1 (amended): `Librarian.drop_collection` deletes the entire vector-store
collection and every record of the current MetadataIndex partition, but leaves
the persisted current-collection name untouched — the reset to the default
name is performed by the CLI `drop` command, not by `drop_collection`. After
`switch("work")` then `drop_collection()`, `current_name()` still returns
`"work"` while `count()` for `"work"` is 0 and the vector-store collection is
gone. -/
theorem C1_drop_behavior (st : Store) :
    (switch_collection st "work").2 = "work" ∧
    (drop_collection (switch_collection st "work").1
        (switch_collection st "work").2).config =
      (switch_collection st "work").1.config ∧
    get_collection_name
      (drop_collection (switch_collection st "work").1
        (switch_collection st "work").2).config = "work" ∧
    count_files
      (drop_collection (switch_collection st "work").1
        (switch_collection st "work").2) "work" = 0 ∧
    hasPart
      (drop_collection (switch_collection st "work").1
        (switch_collection st "work").2).vsColls "work" = false := by
  have h : get_collection_name (save_collection_name "work") = "work" := by decide
  refine ⟨h, rfl, h, ?_, ?_⟩
  · show (partOf (setPart _ (get_collection_name (save_collection_name "work")) []) _).length = 0
    rw [h, partOf_setPart_self]
    rfl
  · show hasPart (removePart _ (get_collection_name (save_collection_name "work"))) "work" = false
    rw [h, hasPart_removePart_self]

/-- C8 (counterexample): a `Librarian.remove` call supplying neither
`hash_prefix` nor `filename` is not rejected: on a partition holding exactly
one record it matches every record, proceeds, deletes the record and returns
`True`. -/
theorem C8_counterexample :
    (removeFile
      { dbParts := [("default", [⟨"abcd1234", "a.txt"⟩])],
        vsColls := [("default", [⟨"some text", [("hash_id", "abcd1234")]⟩])],
        config := none } "default" none none).2.2 = .ok true ∧
    partOf (removeFile
      { dbParts := [("default", [⟨"abcd1234", "a.txt"⟩])],
        vsColls := [("default", [⟨"some text", [("hash_id", "abcd1234")]⟩])],
        config := none } "default" none none).2.1.dbParts "default" = [] := by
  decide

/-- C8 (amended): the "at least one filter" precondition is enforced by the
CLI `rm` command (`librarian_rm`), not by `Librarian.remove` or the index:
the CLI guard rejects an invocation with neither option, while
`Librarian.remove` called with neither filter matches every record of the
partition (its `find` with no filters returns all records) and proceeds —
returning `False` on an empty partition, and deleting the sole record when
exactly one exists. -/
theorem C8_enforcement (st : Store) (curr : String) :
    cli_rm_rejects none none = true ∧
    cli_rm_rejects (some "") (some "") = true ∧
    dao_find (partOf st.dbParts curr) none none = partOf st.dbParts curr ∧
    (partOf st.dbParts curr = [] →
      (removeFile st curr none none).2.2 = .ok false) ∧
    (∀ r : LibraryFile, partOf st.dbParts curr = [r] →
      (removeFile st curr none none).2.2 = .ok true ∧
      partOf (removeFile st curr none none).2.1.dbParts curr = []) := by
  refine ⟨by decide, by decide, rfl, ?_, ?_⟩
  · intro h
    simp [removeFile, dao_find, h]
  · intro r hr
    constructor
    · simp [removeFile, dao_find, hr]
    · simp [removeFile, dao_find, hr, partOf_setPart_self]

/-- C3: `Librarian.remove` behavior by number of matches: zero matches return
`False` with both stores untouched and no deletion performed; more than one
match raises `ValueError` with both stores untouched and no deletion
performed; exactly one match first deletes the vector-store points whose
`metadata.hash_id` equals the record's hash, then deletes the MetadataIndex
records with that hash, and returns `True`. -/
theorem C3_remove (st : Store) (curr : String) (hashPref filename : Option String) :
    (dao_find (partOf st.dbParts curr) hashPref filename = [] →
      removeFile st curr hashPref filename = ([], st, .ok false)) ∧
    ((dao_find (partOf st.dbParts curr) hashPref filename).length > 1 →
      (removeFile st curr hashPref filename).1 = [] ∧
      (removeFile st curr hashPref filename).2.1 = st ∧
      ∃ m, (removeFile st curr hashPref filename).2.2 = .error (.valueError m)) ∧
    (∀ f, dao_find (partOf st.dbParts curr) hashPref filename = [f] →
      (removeFile st curr hashPref filename).1 =
        [.vectorDelete f.hash_id, .indexDelete f.hash_id] ∧
      (removeFile st curr hashPref filename).2.2 = .ok true ∧
      partOf (removeFile st curr hashPref filename).2.1.vsColls curr =
        (partOf st.vsColls curr).filter
          (fun ch => metaLookup ch.metadata "hash_id" != some f.hash_id) ∧
      partOf (removeFile st curr hashPref filename).2.1.dbParts curr =
        (partOf st.dbParts curr).filter (fun q => q.hash_id != f.hash_id)) := by
  refine ⟨?_, ?_, ?_⟩
  · intro h
    simp [removeFile, h]
  · intro h
    cases hfiles : dao_find (partOf st.dbParts curr) hashPref filename with
    | nil => rw [hfiles] at h; simp at h
    | cons f rest =>
      rw [hfiles] at h
      cases rest with
      | nil => simp at h
      | cons q rest2 =>
        have hlen : (q :: rest2).length > 0 := by simp
        refine ⟨?_, ?_, ?_⟩
        · simp [removeFile, hfiles, hlen]
        · simp [removeFile, hfiles, hlen]
        · exact ⟨ambiguousMsg (f :: q :: rest2).length,
            by simp [removeFile, hfiles, hlen]⟩
  · intro f hf
    refine ⟨?_, ?_, ?_, ?_⟩ <;>
      simp [removeFile, hf, partOf_setPart_self]

/-- Witness for C3: on a concrete partition with records
`("aaaa1111", "report.txt")` and `("bbbb2222", "report.pdf")`, a filter
matching nothing is a `False` no-op, the shared filename substring `"report"`
matches both and raises the ambiguity error deleting nothing, and the hash
prefix `"aa"` matches exactly one and deletes it. -/
theorem C3_remove_witness :
    (dao_find (partOf twoRecordStore.dbParts "default") (some "cccc") none = [] ∧
      removeFile twoRecordStore "default" (some "cccc") none =
        ([], twoRecordStore, .ok false)) ∧
    ((dao_find (partOf twoRecordStore.dbParts "default") none
        (some "report")).length > 1 ∧
      (removeFile twoRecordStore "default" none (some "report")).2.1 =
        twoRecordStore ∧
      (∃ m, (removeFile twoRecordStore "default" none (some "report")).2.2 =
        .error (.valueError m))) ∧
    (dao_find (partOf twoRecordStore.dbParts "default") (some "aa") none =
        [⟨"aaaa1111", "report.txt"⟩] ∧
      (removeFile twoRecordStore "default" (some "aa") none).2.2 = .ok true ∧
      partOf (removeFile twoRecordStore "default" (some "aa") none).2.1.dbParts
          "default" =
        (partOf twoRecordStore.dbParts "default").filter
          (fun q => q.hash_id != "aaaa1111")) := by
  refine ⟨⟨by decide, ?_⟩, ⟨by decide, ?_, ?_⟩, ⟨by decide, ?_, ?_⟩⟩
  · exact (C3_remove twoRecordStore "default" (some "cccc") none).1 (by decide)
  · exact ((C3_remove twoRecordStore "default" none (some "report")).2.1
      (by decide)).2.1
  · exact ((C3_remove twoRecordStore "default" none (some "report")).2.1
      (by decide)).2.2
  · exact ((C3_remove twoRecordStore "default" (some "aa") none).2.2
      ⟨"aaaa1111", "report.txt"⟩ (by decide)).2.1
  · exact ((C3_remove twoRecordStore "default" (some "aa") none).2.2
      ⟨"aaaa1111", "report.txt"⟩ (by decide)).2.2.2

/-- C2: `Librarian.add_file` performs its steps in the fixed order existence
check, size check, hash, duplicate check, vector-store write, MetadataIndex
insert: a successful add exhibits exactly that trace; an over-size file stops
right after the size check (before any hashing or loading) with a `ValueError`
and an unchanged store; and when the vector-store write raises, the exception
propagates with the store unchanged and in particular no MetadataIndex record
for that hash. -/
theorem C2_add_order (c : Ctx) (st : Store) (curr p : String) (md : Option Meta)
    (f : SrcFile) :
    ((add_file c st curr p md).2.2 = none →
      (add_file c st curr p md).1 =
        [.existsCheck, .sizeCheck, .hashed, .dupCheck, .vectorWrite,
          .indexInsert]) ∧
    (c.fs p = .file f → f.bytes.length > c.maxFileSize →
      add_file c st curr p md =
        ([.existsCheck, .sizeCheck], st,
          some (.valueError (sizeMsg f.bytes.length)))) ∧
    (∀ e, c.fs p = .file f → ¬ f.bytes.length > c.maxFileSize →
      dao_exist (partOf st.dbParts curr) (c.hashFn f.bytes) = false →
      save_any c.loader c.addDocs f (partOf st.vsColls curr)
        (metaUpdate [("hash_id", c.hashFn f.bytes)] (md.getD [])) = .error e →
      add_file c st curr p md =
        ([.existsCheck, .sizeCheck, .hashed, .dupCheck, .vectorWrite], st,
          some e) ∧
      dao_exist (partOf (add_file c st curr p md).2.1.dbParts curr)
        (c.hashFn f.bytes) = false) := by
  refine ⟨?_, ?_, ?_⟩
  · intro hok
    cases hfs : c.fs p with
    | file g => exact (add_file_ok_spec c st curr p md g hfs hok).2.2.1
    | dir l =>
      rw [add_file_notFound c st curr p md (by simp [hfs])] at hok
      simp at hok
    | missing =>
      rw [add_file_notFound c st curr p md (by simp [hfs])] at hok
      simp at hok
  · intro hfp hsz
    exact add_file_oversize c st curr p md f hfp hsz
  · intro e hfp hsz hdup hsv
    have hw := add_file_writeFail c st curr p md f e hfp hsz hdup hsv
    refine ⟨hw, ?_⟩
    rw [hw]
    exact hdup

/-- Witness for C2: with a concrete context and the empty store, a successful
add of `a.txt` shows the full ordered trace; lowering the size ceiling below
the file size stops after the size check; and a failing loader propagates the
error while leaving the MetadataIndex free of the hash. -/
theorem C2_add_order_witness :
    (add_file okCtx emptyStore "default" "a.txt" none).1 =
      [.existsCheck, .sizeCheck, .hashed, .dupCheck, .vectorWrite,
        .indexInsert] ∧
    add_file smallCapCtx emptyStore "default" "a.txt" none =
      ([.existsCheck, .sizeCheck], emptyStore,
        some (.valueError (sizeMsg 3))) ∧
    (add_file loadFailCtx emptyStore "default" "a.txt" none =
      ([.existsCheck, .sizeCheck, .hashed, .dupCheck, .vectorWrite],
        emptyStore, some (.runtimeError "parse failure")) ∧
      dao_exist
        (partOf (add_file loadFailCtx emptyStore "default" "a.txt" none).2.1.dbParts
          "default") (loadFailCtx.hashFn [1, 2, 3]) = false) := by
  refine ⟨?_, ?_, ?_⟩
  · exact (C2_add_order okCtx emptyStore "default" "a.txt" none
      ⟨"a.txt", [1, 2, 3]⟩).1 (by decide)
  · exact (C2_add_order smallCapCtx emptyStore "default" "a.txt" none
      ⟨"a.txt", [1, 2, 3]⟩).2.1 (by decide) (by decide)
  · exact (C2_add_order loadFailCtx emptyStore "default" "a.txt" none
      ⟨"a.txt", [1, 2, 3]⟩).2.2 (.runtimeError "parse failure")
      (by decide) (by decide) (by decide) (by decide)

/-- C4: the content hash is a function of the file's bytes only, so two
byte-identical files with different names hash identically; adding the same
content twice to the same collection yields `added` then `skipped`
(duplicate), and the MetadataIndex then contains exactly one record for that
hash. -/
theorem C4_idempotent_add (c : Ctx) (st : Store) (curr p q : String) (md : Meta)
    (f g : SrcFile)
    (hfp : c.fs p = .file f) (hfq : c.fs q = .file g)
    (hbytes : f.bytes = g.bytes)
    (h1 : (add_file c st curr p (some md)).2.2 = none) :
    calculate_file_hash c.hashFn f = calculate_file_hash c.hashFn g ∧
    (runBatchFiles c st curr md [p, q]).1.map (fun o => o.tag) =
      [.added, .skipped] ∧
    ((partOf (runBatchFiles c st curr md [p, q]).2.dbParts curr).countP
      (fun r => r.hash_id == c.hashFn f.bytes)) = 1 := by
  obtain ⟨hsz, hdup, htr, docs, coll2, hld, had, hstate⟩ :=
    add_file_ok_spec c st curr p (some md) f hfp h1
  have hszg : ¬ g.bytes.length > c.maxFileSize := by rw [← hbytes]; exact hsz
  have hpart1 : partOf (add_file c st curr p (some md)).2.1.dbParts curr =
      partOf st.dbParts curr ++ [⟨c.hashFn f.bytes, baseName p⟩] := by
    rw [hstate]
    exact partOf_setPart_self _ _ _
  have hdup2 : dao_exist (partOf (add_file c st curr p (some md)).2.1.dbParts curr)
      (c.hashFn g.bytes) = true := by
    rw [← hbytes, hpart1]
    exact dao_exist_append_self _ _ _
  have h2 := add_file_dup c (add_file c st curr p (some md)).2.1 curr q (some md)
    g hfq hszg hdup2
  refine ⟨by simp [calculate_file_hash, hbytes], ?_, ?_⟩
  · simp [runBatchFiles, h1, h2, classify]
  · have hfinal : (runBatchFiles c st curr md [p, q]).2 =
        (add_file c st curr p (some md)).2.1 := by
      simp [runBatchFiles, h2]
    rw [hfinal, hpart1, List.countP_append]
    rw [countP_of_dao_exist_false _ _ hdup]
    simp [List.countP_cons]

/-- Witness for C4: two byte-identical files `a.txt` and `b.txt` in a concrete
context; the batch yields `added` then `skipped` and one record remains. -/
theorem C4_idempotent_add_witness :
    calculate_file_hash dupCtx.hashFn ⟨"a.txt", [1, 2, 3]⟩ =
      calculate_file_hash dupCtx.hashFn ⟨"b.txt", [1, 2, 3]⟩ ∧
    (runBatchFiles dupCtx emptyStore "default" [] ["a.txt", "b.txt"]).1.map
      (fun o => o.tag) = [.added, .skipped] ∧
    ((partOf (runBatchFiles dupCtx emptyStore "default" []
        ["a.txt", "b.txt"]).2.dbParts "default").countP
      (fun r => r.hash_id == dupCtx.hashFn [1, 2, 3])) = 1 :=
  C4_idempotent_add dupCtx emptyStore "default" "a.txt" "b.txt" []
    ⟨"a.txt", [1, 2, 3]⟩ ⟨"b.txt", [1, 2, 3]⟩
    (by decide) (by decide) (by decide) (by decide)

/-- C5: per-file failures in an `add_by_path` batch are caught and classified,
never aborting sibling files: a batch always yields exactly one outcome per
discovered file (no abort), and for a directory with one valid `.txt` file,
one over-size file and one corrupt `.pdf`, the batch yields exactly one
`added`, one `skipped` (the `ValueError` of the size ceiling) and one `error`
(the loader failure), in discovery order, with no exception escaping the
generator. -/
theorem C5_batch_classification (c : Ctx) (st : Store) (curr dirp pv pb pc : String)
    (fb : SrcFile) (emsg : String)
    (hgit : strEndsWith dirp ".git" = false)
    (hdir : c.fs dirp = .dir [pv, pb, pc])
    (hsv : strLower (pathSuffix pv) = ".txt")
    (hsb : strLower (pathSuffix pb) ∈ get_supported_suffixes)
    (hsc : strLower (pathSuffix pc) = ".pdf")
    (hfb : c.fs pb = .file fb) (hover : fb.bytes.length > c.maxFileSize)
    (h1 : (add_file c st curr pv (some (metaSet [] "source_root" dirp))).2.2 = none)
    (hfc : (add_file c
        (add_file c st curr pv (some (metaSet [] "source_root" dirp))).2.1
        curr pc (some (metaSet [] "source_root" dirp))).2.2 =
        some (.runtimeError emsg)) :
    (∀ ps md, (runBatchFiles c st curr md ps).1.length = ps.length) ∧
    runGen (add_by_path c st curr dirp).1 4 =
      ([⟨.added, pv, none⟩,
        ⟨.skipped, pb, some (sizeMsg fb.bytes.length)⟩,
        ⟨.error, pc, some emsg⟩], [], none) := by
  refine ⟨fun ps md => runBatchFiles_length c st curr md ps, ?_⟩
  have hmv : strLower (pathSuffix pv) ∈ get_supported_suffixes := by
    rw [hsv]; decide
  have hmc : strLower (pathSuffix pc) ∈ get_supported_suffixes := by
    rw [hsc]; decide
  have hpe : pathExists c dirp = true := by simp [pathExists, hdir]
  have hfilter : [pv, pb, pc].filter
      (fun q => get_supported_suffixes.contains (strLower (pathSuffix q))) =
      [pv, pb, pc] := by
    simp [List.filter, hmv, hsb, hmc]
  have hb := add_file_oversize c
    (add_file c st curr pv (some (metaSet [] "source_root" dirp))).2.1 curr pb
    (some (metaSet [] "source_root" dirp)) fb hfb hover
  have houts : runBatchFiles c st curr (metaSet [] "source_root" dirp)
      [pv, pb, pc] =
      ([⟨.added, pv, none⟩,
        ⟨.skipped, pb, some (sizeMsg fb.bytes.length)⟩,
        ⟨.error, pc, some emsg⟩],
        (add_file c
          (add_file c st curr pv (some (metaSet [] "source_root" dirp))).2.1
          curr pc (some (metaSet [] "source_root" dirp))).2.1) := by
    simp [runBatchFiles, h1, hb, hfc, classify, msgOf, errMsg]
  have hprog : (add_by_path c st curr dirp).1 =
      .withFinally (progOfOutcomes
        [⟨.added, pv, none⟩,
         ⟨.skipped, pb, some (sizeMsg fb.bytes.length)⟩,
         ⟨.error, pc, some emsg⟩]) [] := by
    simp [add_by_path, hgit, hpe, hdir, hmv, hsb, hmc, houts]
  rw [hprog, runGen_withFinally_outcomes _ _ 4 (by omega)]
  simp

/-- Witness for C5: the concrete directory `docs` with `good.txt` (3 bytes),
`huge.txt` (101 bytes, over the 100-byte ceiling) and the unparsable
`bad.pdf` yields `added`, `skipped`, `error` in discovery order. -/
theorem C5_batch_classification_witness :
    runGen (add_by_path batchCtx emptyStore "default" "docs").1 4 =
      ([⟨.added, "docs/good.txt", none⟩,
        ⟨.skipped, "docs/huge.txt",
          some (sizeMsg (List.replicate 101 (7 : Nat)).length)⟩,
        ⟨.error, "docs/bad.pdf", some "Unprocessable entity"⟩], [], none) :=
  (C5_batch_classification batchCtx emptyStore "default" "docs"
    "docs/good.txt" "docs/huge.txt" "docs/bad.pdf"
    ⟨"docs/huge.txt", List.replicate 101 7⟩ "Unprocessable entity"
    (by decide) (by decide) (by decide) (by decide) (by decide) (by decide)
    (by decide) (by decide) (by decide)).2

/-- C6: every chunk written to the vector store by a successful `add_file`
carries metadata obtained by merging the caller-side extra metadata (the
computed `hash_id` plus the optional `additional_metadata`, e.g.
`source_root`) over the loader-provided metadata, with the extra keys taking
precedence on conflicts; in particular every written chunk's
`metadata.hash_id` equals the `hash_id` of the LibraryFile record created for
that file. -/
theorem C6_metadata_invariant (c : Ctx) (st : Store) (curr p : String)
    (f : SrcFile) (additional : Meta)
    (hfp : c.fs p = .file f)
    (hnohash : metaLookup additional "hash_id" = none)
    (hok : (add_file c st curr p (some additional)).2.2 = none) :
    ∃ docs coll2,
      c.loader f = .ok docs ∧
      c.addDocs (partOf st.vsColls curr)
        (inject_metadata docs
          (metaUpdate [("hash_id", c.hashFn f.bytes)] additional)) = .ok coll2 ∧
      (∀ d ∈ inject_metadata docs
          (metaUpdate [("hash_id", c.hashFn f.bytes)] additional),
        metaLookup d.metadata "hash_id" = some (c.hashFn f.bytes) ∧
        (∀ k v, metaLookup
            (metaUpdate [("hash_id", c.hashFn f.bytes)] additional) k = some v →
          metaLookup d.metadata k = some v)) ∧
      partOf (add_file c st curr p (some additional)).2.1.dbParts curr =
        partOf st.dbParts curr ++ [⟨c.hashFn f.bytes, baseName p⟩] := by
  obtain ⟨hsz, hdup, htr, docs, coll2, hld, had, hstate⟩ :=
    add_file_ok_spec c st curr p (some additional) f hfp hok
  have hnd : KeysNodup (metaUpdate [("hash_id", c.hashFn f.bytes)] additional) :=
    keysNodup_metaUpdate _ _ (by simp [KeysNodup])
  have hlook : metaLookup (metaUpdate [("hash_id", c.hashFn f.bytes)] additional)
      "hash_id" = some (c.hashFn f.bytes) := by
    rw [metaUpdate_lookup_of_not_mem _ _ _
      (forall_of_metaLookup_none _ _ hnohash)]
    simp [metaLookup]
  have hne : metaNonempty (metaUpdate [("hash_id", c.hashFn f.bytes)] additional) =
      true := metaNonempty_metaUpdate _ _ (by simp)
  refine ⟨docs, coll2, hld, had, ?_, ?_⟩
  · intro d hd
    rcases List.mem_map.mp hd with ⟨d0, hd0, hdd⟩
    rw [hne] at hdd
    simp only [if_true] at hdd
    subst hdd
    refine ⟨?_, ?_⟩
    · exact metaUpdate_lookup_of_lookup d0.metadata _ _ _ hnd hlook
    · intro k v hkv
      exact metaUpdate_lookup_of_lookup d0.metadata _ k v hnd hkv
  · rw [hstate]
    exact partOf_setPart_self _ _ _

/-- Witness for C6: a concrete successful add of `a.txt` with
`additional_metadata = \x7b"source_root": "/tmp/src"\x7d`. -/
theorem C6_metadata_invariant_witness :
    ∃ docs coll2,
      okCtx.loader ⟨"a.txt", [1, 2, 3]⟩ = .ok docs ∧
      okCtx.addDocs (partOf emptyStore.vsColls "default")
        (inject_metadata docs
          (metaUpdate [("hash_id", okCtx.hashFn [1, 2, 3])]
            [("source_root", "/tmp/src")])) = .ok coll2 ∧
      (∀ d ∈ inject_metadata docs
          (metaUpdate [("hash_id", okCtx.hashFn [1, 2, 3])]
            [("source_root", "/tmp/src")]),
        metaLookup d.metadata "hash_id" = some (okCtx.hashFn [1, 2, 3]) ∧
        (∀ k v, metaLookup
            (metaUpdate [("hash_id", okCtx.hashFn [1, 2, 3])]
              [("source_root", "/tmp/src")]) k = some v →
          metaLookup d.metadata k = some v)) ∧
      partOf (add_file okCtx emptyStore "default" "a.txt"
          (some [("source_root", "/tmp/src")])).2.1.dbParts "default" =
        partOf emptyStore.dbParts "default" ++
          [⟨okCtx.hashFn [1, 2, 3], baseName "a.txt"⟩] :=
  C6_metadata_invariant okCtx emptyStore "default" "a.txt" ⟨"a.txt", [1, 2, 3]⟩
    [("source_root", "/tmp/src")] (by decide) (by decide) (by decide)

/-- C7: collections are isolated partitions. Adding the same content to
collection `A` and then to collection `B` succeeds in both (duplicate
rejection is scoped to a single collection, because the duplicate probe runs
against the target collection's own partition), and dropping `A` leaves `B`'s
MetadataIndex records and vector-store points unchanged while emptying `A`'s
partition and deleting `A`'s vector-store collection. -/
theorem C7_collection_isolation (c : Ctx) (st : Store) (A B p : String)
    (f : SrcFile) (docs : List Chunk) (md : Option Meta)
    (hAB : A ≠ B) (hfp : c.fs p = .file f)
    (hsz : ¬ f.bytes.length > c.maxFileSize)
    (hld : c.loader f = .ok docs)
    (haddT : ∀ coll ds, c.addDocs coll ds = .ok (coll ++ ds))
    (hdupA : dao_exist (partOf st.dbParts A) (c.hashFn f.bytes) = false)
    (hdupB : dao_exist (partOf st.dbParts B) (c.hashFn f.bytes) = false) :
    (add_file c st A p md).2.2 = none ∧
    (add_file c (add_file c st A p md).2.1 B p md).2.2 = none ∧
    partOf (drop_collection
        (add_file c (add_file c st A p md).2.1 B p md).2.1 A).dbParts B =
      partOf st.dbParts B ++ [⟨c.hashFn f.bytes, baseName p⟩] ∧
    partOf (drop_collection
        (add_file c (add_file c st A p md).2.1 B p md).2.1 A).vsColls B =
      partOf (add_file c (add_file c st A p md).2.1 B p md).2.1.vsColls B ∧
    partOf (drop_collection
        (add_file c (add_file c st A p md).2.1 B p md).2.1 A).dbParts A = [] ∧
    hasPart (drop_collection
        (add_file c (add_file c st A p md).2.1 B p md).2.1 A).vsColls A =
      false := by
  have hBA : B ≠ A := fun hh => hAB hh.symm
  have h1 := add_file_ok_intro c st A p md f docs
    (partOf st.vsColls A ++ inject_metadata docs
      (metaUpdate [("hash_id", c.hashFn f.bytes)] (md.getD [])))
    hfp hsz hdupA hld (haddT _ _)
  have hdb1B : partOf (add_file c st A p md).2.1.dbParts B =
      partOf st.dbParts B := by
    rw [h1]; exact partOf_setPart_ne _ _ _ _ hBA
  have hdupB1 : dao_exist (partOf (add_file c st A p md).2.1.dbParts B)
      (c.hashFn f.bytes) = false := by rw [hdb1B]; exact hdupB
  have h2 := add_file_ok_intro c (add_file c st A p md).2.1 B p md f docs
    (partOf (add_file c st A p md).2.1.vsColls B ++ inject_metadata docs
      (metaUpdate [("hash_id", c.hashFn f.bytes)] (md.getD [])))
    hfp hsz hdupB1 hld (haddT _ _)
  have hdb2B : partOf (add_file c (add_file c st A p md).2.1 B p md).2.1.dbParts B =
      partOf st.dbParts B ++ [⟨c.hashFn f.bytes, baseName p⟩] := by
    rw [h2]
    show partOf (setPart _ B _) B = _
    rw [partOf_setPart_self, hdb1B]
  refine ⟨by rw [h1], by rw [h2], ?_, ?_, ?_, ?_⟩
  · rw [drop_collection_dbParts, partOf_setPart_ne _ _ _ _ hBA, hdb2B]
  · rw [drop_collection_vsColls, partOf_removePart_ne _ _ _ hBA]
  · rw [drop_collection_dbParts, partOf_setPart_self]
  · rw [drop_collection_vsColls, hasPart_removePart_self]

/-- Witness for C7: concrete adds of `a.txt` into collections `"alpha"` and
`"beta"` from the empty store, then a drop of `"alpha"`. -/
theorem C7_collection_isolation_witness :
    (add_file okCtx emptyStore "alpha" "a.txt" none).2.2 = none ∧
    (add_file okCtx (add_file okCtx emptyStore "alpha" "a.txt" none).2.1
      "beta" "a.txt" none).2.2 = none ∧
    partOf (drop_collection
        (add_file okCtx (add_file okCtx emptyStore "alpha" "a.txt" none).2.1
          "beta" "a.txt" none).2.1 "alpha").dbParts "beta" =
      partOf emptyStore.dbParts "beta" ++
        [⟨okCtx.hashFn [1, 2, 3], baseName "a.txt"⟩] ∧
    partOf (drop_collection
        (add_file okCtx (add_file okCtx emptyStore "alpha" "a.txt" none).2.1
          "beta" "a.txt" none).2.1 "alpha").vsColls "beta" =
      partOf (add_file okCtx (add_file okCtx emptyStore "alpha" "a.txt" none).2.1
        "beta" "a.txt" none).2.1.vsColls "beta" ∧
    partOf (drop_collection
        (add_file okCtx (add_file okCtx emptyStore "alpha" "a.txt" none).2.1
          "beta" "a.txt" none).2.1 "alpha").dbParts "alpha" = [] ∧
    hasPart (drop_collection
        (add_file okCtx (add_file okCtx emptyStore "alpha" "a.txt" none).2.1
          "beta" "a.txt" none).2.1 "alpha").vsColls "alpha" = false :=
  C7_collection_isolation okCtx emptyStore "alpha" "beta" "a.txt"
    ⟨"a.txt", [1, 2, 3]⟩ [⟨"chunk of a.txt", [("source", "a.txt")]⟩] none
    (by decide) (by decide) (by decide) (by decide)
    (fun coll ds => rfl) (by decide) (by decide)

/-- C9: remote-source lifetime. When `add_by_path` is given a `.git` locator
that does not exist locally: if the fetch fails, the batch yields a single
`error` outcome for that path and finishes without raising; if the fetch
succeeds, the generator runs its per-file loop under a `finally` that removes
the fetched directory, so for every consumption budget `k ≥ 1` — early stop
after any number of outcomes as well as normal completion — the fetched
directory is in the removed list. -/
theorem C9_remote_fetch_cleanup (c : Ctx) (st : Store) (curr url target emsg : String)
    (hgit : strEndsWith url ".git" = true)
    (hmiss : pathExists c url = false) :
    (c.gitClone url = .error emsg →
      add_by_path c st curr url = (.yieldOut ⟨.error, url, some emsg⟩ .done, st) ∧
      (∀ k, 1 ≤ k → runGen (add_by_path c st curr url).1 k =
        ([⟨.error, url, some emsg⟩], [], none))) ∧
    (c.gitClone url = .ok target →
      ∀ k, 1 ≤ k →
        (runGen (add_by_path c st curr url).1 k).2.1 = [target]) := by
  constructor
  · intro hclone
    have hprog : add_by_path c st curr url =
        (.yieldOut ⟨.error, url, some emsg⟩ .done, st) := by
      simp [add_by_path, hgit, hmiss, hclone]
    refine ⟨hprog, ?_⟩
    intro k hk
    rw [hprog]
    cases k with
    | zero => omega
    | succ k2 => cases k2 <;> simp [runGen]
  · intro hclone k hk
    cases hfs : c.fs target with
    | file g =>
      have hprog : (add_by_path c st curr url).1 =
          .withFinally (progOfOutcomes
            (runBatchFiles c st curr (metaSet [] "source_root" url) [target]).1)
            [target] := by
        simp [add_by_path, hgit, hmiss, hclone, hfs]
      rw [hprog, runGen_withFinally_outcomes _ _ k hk]
    | dir listing =>
      have hprog : (add_by_path c st curr url).1 =
          .withFinally (progOfOutcomes
            (runBatchFiles c st curr
              (metaSet (metaSet [] "source_root" url) "source_root" target)
              (listing.filter (fun q =>
                get_supported_suffixes.contains (strLower (pathSuffix q))))).1)
            [target] := by
        simp [add_by_path, hgit, hmiss, hclone, hfs]
      rw [hprog, runGen_withFinally_outcomes _ _ k hk]
    | missing =>
      have hprog : (add_by_path c st curr url).1 =
          .withFinally (progOfOutcomes []) [target] := by
        simp [add_by_path, hgit, hmiss, hclone, hfs]
      rw [hprog, runGen_withFinally_outcomes _ _ k hk]

/-- Witness for C9: a failing clone of `bad.git` yields exactly one `error`
outcome; a successful clone of `repo.git` leaves the fetched directory
`gitrepo/repo` removed both when the consumer stops after the first outcome
and when the batch runs to completion. -/
theorem C9_remote_fetch_cleanup_witness :
    runGen (add_by_path gitCtx emptyStore "default"
        "https://example.com/bad.git").1 3 =
      ([⟨.error, "https://example.com/bad.git",
        some "Failed to clone repository: network unreachable"⟩], [], none) ∧
    (runGen (add_by_path gitCtx emptyStore "default"
        "https://example.com/repo.git").1 1).2.1 = ["gitrepo/repo"] ∧
    (runGen (add_by_path gitCtx emptyStore "default"
        "https://example.com/repo.git").1 5).2.1 = ["gitrepo/repo"] := by
  refine ⟨?_, ?_, ?_⟩
  · exact ((C9_remote_fetch_cleanup gitCtx emptyStore "default"
      "https://example.com/bad.git" "unused"
      "Failed to clone repository: network unreachable"
      (by decide) (by decide)).1 (by decide)).2 3 (by omega)
  · exact (C9_remote_fetch_cleanup gitCtx emptyStore "default"
      "https://example.com/repo.git" "gitrepo/repo" "unused"
      (by decide) (by decide)).2 (by decide) 1 (by omega)
  · exact (C9_remote_fetch_cleanup gitCtx emptyStore "default"
      "https://example.com/repo.git" "gitrepo/repo" "unused"
      (by decide) (by decide)).2 (by decide) 5 (by omega)

/-- C10: a path that does not exist locally and does not end in `.git` makes
`add_by_path` raise `FileNotFoundError` at its first iteration: the generator
produces no outcome tuple at all, and the exception escapes to the consumer. -/
theorem C10_missing_path_raises (c : Ctx) (st : Store) (curr path : String)
    (hgit : strEndsWith path ".git" = false)
    (hmiss : pathExists c path = false) :
    add_by_path c st curr path =
      (.raiseErr (.fileNotFound (pathNotFoundMsg path)), st) ∧
    (∀ k, 1 ≤ k → runGen (add_by_path c st curr path).1 k =
      ([], [], some (.fileNotFound (pathNotFoundMsg path)))) := by
  have hprog : add_by_path c st curr path =
      (.raiseErr (.fileNotFound (pathNotFoundMsg path)), st) := by
    simp [add_by_path, hgit, hmiss]
  refine ⟨hprog, ?_⟩
  intro k hk
  rw [hprog]
  cases k with
  | zero => omega
  | succ k2 => simp [runGen]

/-- Witness for C10: the missing path `missing.txt` raises the
`FileNotFoundError` at the first iteration and yields nothing. -/
theorem C10_missing_path_raises_witness :
    add_by_path okCtx emptyStore "default" "missing.txt" =
      (.raiseErr (.fileNotFound (pathNotFoundMsg "missing.txt")), emptyStore) ∧
    runGen (add_by_path okCtx emptyStore "default" "missing.txt").1 1 =
      ([], [], some (.fileNotFound (pathNotFoundMsg "missing.txt"))) := by
  refine ⟨?_, ?_⟩
  · exact (C10_missing_path_raises okCtx emptyStore "default" "missing.txt"
      (by decide) (by decide)).1
  · exact (C10_missing_path_raises okCtx emptyStore "default" "missing.txt"
      (by decide) (by decide)).2 1 (by omega)

/-- Witness for C8: on concrete stores, `Librarian.remove` with neither filter
returns `False` against an empty partition and deletes the sole record of a
one-record partition. -/
theorem C8_enforcement_witness :
    ((removeFile singleRecordStore "other" none none).2.2 = .ok false) ∧
    ((removeFile singleRecordStore "default" none none).2.2 = .ok true ∧
      partOf (removeFile singleRecordStore "default" none none).2.1.dbParts
        "default" = []) := by
  refine ⟨?_, ?_⟩
  · exact (C8_enforcement singleRecordStore "other").2.2.2.1 (by decide)
  · exact (C8_enforcement singleRecordStore "default").2.2.2.2
      ⟨"abcd1234", "a.txt"⟩ (by decide)

end LibrarianModel
